import Mathlib

/-!
Shallow embedding of `src/crates/strategy_optimizers/src/optimization.py`
(the coordinate-ascent optimization engine) and proofs about it.

Modelling conventions:
* Python `float` values are modelled as `ℚ` (exact arithmetic; the source
  performs no operation whose truth on floats vs rationals differs for the
  properties proved here, and concrete inputs are chosen representable).
* A Python object (a `Param` `TypedDict` held in a tuple) is modelled as a
  `PObj`: the `Param` value together with an object identity `oid : ℕ`;
  the Python `is` test on two such objects is equality of their `oid`s.
  Newly constructed dicts receive fresh `oid`s from a counter threaded
  through the run, so a freshly decoded settings list never contains two
  identical objects, while a caller-supplied tuple may.
* The encoded values passed across the objective boundary
  (k-suffixed ratio strings, `int`s, `float`s) are modelled by the inductive
  `EncodedValue`, whose constructor records the runtime type that the
  `isinstance` tests in `func_to_optimize` inspect.  A ratio string
  formed from a value v is modelled as `ratioStr v`, since Python float formatting and
  re-parsing round-trips the value.
* `scipy.optimize.minimize` is external; the engine relies only on it
  invoking the callback a finite number of times and its return value is
  discarded by the source (line 179: the result is not even bound).  It is
  modelled by the list of scalar points at which it evaluates the callback
  (one list per `optimize_one` invocation, supplied by a `Solver`
  schedule); quantifying over all schedules covers every behaviour of the
  adaptive solver.  The bounds tuple flows only into the external solver,
  so it is consulted only by the length check of `optimize_all`.
* The class-level recorder `results_of_single_param_optimization` is
  cleared at the start of `optimize_all` and of every `optimize_one`
  (lines 112 and 163), so each `optimize_one` works on exactly the records
  of its own evaluations; it is modelled by that per-call list.  An
  instrumentation `trace` additionally accumulates every recorded
  evaluation of a whole `optimize_all` run, to state claims that no
  evaluation was performed.
* Runtime errors are modelled by `Err`: `lengthMismatch` is the
  `DifferentListLengthException` of line 108, `emptyHistory` the
  `IndexError` raised by `results[0]` on an empty recorder (line 190),
  `indexError` the `IndexError` raised by indexing the settings tuple
  (line 120) when the settings tuple is shorter than the loop range.
* The unbounded `while True` loop is modelled with explicit fuel;
  `none` means the fuel was exhausted (possible non-termination).
-/

/-- The constant `MIN_DIFF_BETWEEN_ITERATIONS` (optimization.py line 5). -/
def MIN_DIFF_BETWEEN_ITERATIONS : ℚ := 30

/-- The `Param` TypedDict (lines 12–15): `value`, `ratio`, `is_int`.
The source field names `ratio` and `is_int` are rendered `isRatio` and
`isInt`. -/
structure Param where
  value : ℚ
  isRatio : Bool
  isInt : Bool
deriving DecidableEq

/-- A `Param` dict object in memory: its value plus its object identity.
Python `a is b` on two settings-tuple members is `a.oid = b.oid`. -/
structure PObj where
  oid : ℕ
  par : Param
deriving DecidableEq

/-- The `Result` TypedDict (lines 18–20): a score and a full settings
tuple (of Param objects). -/
structure Result where
  value : ℚ
  settings : List PObj
deriving DecidableEq

/-- A value crossing the objective boundary, tagged with its Python
runtime type: a k-suffixed ratio string holding v, an `int`, or a `float`. -/
inductive EncodedValue where
  | ratioStr (v : ℚ)
  | intVal (n : ℤ)
  | floatVal (v : ℚ)
deriving DecidableEq

/-- The objective `function` (line 102): from an encoded parameter tuple
to a score and an echoed settings sequence. -/
def Objective : Type := List EncodedValue → ℚ × List EncodedValue

/-- The external bounded scalar solver, abstracted as the finite sequence
of points at which it evaluates the callback; indexed by the ordinal
number of the `optimize_one` call within the run. -/
def Solver : Type := ℕ → List ℚ

/-- Python `int(x)`: truncation toward zero.  Computed from the reduced
numerator and denominator so that it evaluates by kernel reduction. -/
def pyInt (q : ℚ) : ℤ :=
  if 0 ≤ q.num then ((q.num.natAbs / q.den : ℕ) : ℤ)
  else -((q.num.natAbs / q.den : ℕ) : ℤ)

/-- Python `list.insert(i, a)`: inserts before position `i`, clamping an
out-of-range index to the end of the list. -/
def pyInsert (l : List α) (i : ℕ) (a : α) : List α :=
  l.take i ++ a :: l.drop i

/-- The method `Optimization._gather_params_to_pass` (lines 27–54): encode each fixed
parameter in order (ratio → suffixed string, else `int(value)` when
`is_int`, else `float(value)`), then `insert` the candidate scalar at
`param_index` with the same branch on its mode flags. -/
def gather_params_to_pass (param : ℚ) (paramIndex : ℕ)
    (paramRatio isParamInt : Bool) (fixedParams : List Param) :
    List EncodedValue :=
  let resultParams := fixedParams.map (fun currentParam =>
    if currentParam.isRatio then EncodedValue.ratioStr currentParam.value
    else if currentParam.isInt then EncodedValue.intVal (pyInt currentParam.value)
    else EncodedValue.floatVal currentParam.value)
  pyInsert resultParams paramIndex
    (if paramRatio then EncodedValue.ratioStr param
     else if isParamInt then EncodedValue.intVal (pyInt param)
     else EncodedValue.floatVal param)

/-- The per-parameter encoding performed by `_gather_params_to_pass` on
each element (the branch of lines 38–45, equally lines 47–52). -/
def encodeParam (p : Param) : EncodedValue :=
  if p.isRatio then EncodedValue.ratioStr p.value
  else if p.isInt then EncodedValue.intVal (pyInt p.value)
  else EncodedValue.floatVal p.value

/-- The decoding comprehension body of `func_to_optimize` (lines 80–86):
a string decodes to a ratio Param (`float(setting[:-1])`), an `int` to an
integer-mode Param, anything else to a plain float Param. -/
def decodeValue : EncodedValue → Param
  | EncodedValue.ratioStr v => ⟨v, true, false⟩
  | EncodedValue.intVal n => ⟨(n : ℚ), false, true⟩
  | EncodedValue.floatVal v => ⟨v, false, false⟩

/-- Decoding of a whole echoed settings sequence (lines 78–89): each
element becomes a freshly constructed Param dict, so each receives a
fresh object identity from the counter. -/
def decodeSettings : ℕ → List EncodedValue → List PObj
  | _, [] => []
  | ctr, e :: es => ⟨ctr, decodeValue e⟩ :: decodeSettings (ctr + 1) es

/-- The concrete rational 27/10 (= 2.7), given by its reduced fraction so
that it evaluates by kernel reduction. -/
def q27_10 : ℚ := ⟨27, 10, by decide, by decide⟩

/-- One invocation of the scalar wrapper `func_to_optimize` (lines
62–95) at point `x`: gather the encoded tuple, call the objective, decode
the echoed settings with fresh object identities, and record the
resulting `Result`.  Returns the recorded Result and the new identity
counter (`-result`, returned to the solver, plays no role because the
solver is modelled by its evaluation points). -/
def evalOnce (f : Objective) (fixedParams : List PObj) (paramIndex : ℕ)
    (paramRatio isParamInt : Bool) (ctr : ℕ) (x : ℚ) : Result × ℕ :=
  let call := f (gather_params_to_pass x paramIndex paramRatio isParamInt
    (fixedParams.map PObj.par))
  (⟨call.1, decodeSettings ctr call.2⟩, ctr + call.2.length)

/-- The recorder contents after the solver evaluated the wrapper at the
points `xs` (in order), starting from identity counter `ctr`. -/
def evalRecords (f : Objective) (fixedParams : List PObj) (paramIndex : ℕ)
    (paramRatio isParamInt : Bool) : ℕ → List ℚ → List Result × ℕ
  | ctr, [] => ([], ctr)
  | ctr, x :: xs =>
    let r := evalOnce f fixedParams paramIndex paramRatio isParamInt ctr x
    let rest := evalRecords f fixedParams paramIndex paramRatio isParamInt r.2 xs
    (r.1 :: rest.1, rest.2)

/-- The runtime errors of the engine.  `lengthMismatch` is the
`DifferentListLengthException` (line 108); `emptyHistory` the `IndexError`
of `results[0]` on an empty recorder (line 190); `indexError` the
`IndexError` of indexing the best settings tuple (line 120). -/
inductive Err where
  | lengthMismatch
  | emptyHistory
  | indexError
deriving DecidableEq

/-- The recorder sort of lines 187–189: Python `list.sort` with
`key=value` and `reverse=True`, i.e. a stable descending sort by score. -/
def pySortDesc (rs : List Result) : List Result :=
  rs.mergeSort (fun a b => decide (b.value ≤ a.value))

/-- The method `Optimization.optimize_one` (lines 154–190): clear the recorder
(modelled by starting it empty), let the external solver evaluate the
wrapper at its chosen points `solverPoints`, discard the solver's
reported optimum, sort the recorder descending by score and return its
first element — or fail with `emptyHistory` when nothing was recorded.
Returns additionally the new identity counter and the recorder contents. -/
def optimize_one (f : Objective) (solverPoints : List ℚ) (param : Param)
    (paramIndex : ℕ) (fixedParams : List PObj) (ctr : ℕ) :
    Except Err Result × ℕ × List Result :=
  match (pySortDesc (evalRecords f fixedParams paramIndex param.isRatio
      param.isInt ctr solverPoints).1).head? with
  | some r => (Except.ok r,
      (evalRecords f fixedParams paramIndex param.isRatio param.isInt
        ctr solverPoints).2,
      (evalRecords f fixedParams paramIndex param.isRatio param.isInt
        ctr solverPoints).1)
  | none => (Except.error Err.emptyHistory,
      (evalRecords f fixedParams paramIndex param.isRatio param.isInt
        ctr solverPoints).2,
      (evalRecords f fixedParams paramIndex param.isRatio param.isInt
        ctr solverPoints).1)

/-- The `fixed_params` computation of lines 122–128: keep every element of
the settings tuple that `is not` the current parameter object. -/
def fixedParamsOf (settings : List PObj) (currentParam : PObj) : List PObj :=
  settings.filter (fun p => p.oid != currentParam.oid)

/-- The mutable state of the `optimize_all` loop: `best` is
`best_result`, `sweepRes` is `result_of_all_params_iteration`, `ctr` the
fresh object-identity counter, `callIdx` the number of `optimize_one`
calls made so far (indexing the solver schedule), and `trace` the
instrumentation list of every evaluation recorded so far in the run. -/
structure LoopState where
  best : Result
  sweepRes : Result
  ctr : ℕ
  callIdx : ℕ
  trace : List Result
deriving DecidableEq

/-- One iteration of the `for i in range(len(params))` body (lines
118–136): index into the current best settings (an out-of-range index is
the `IndexError` of line 120), drop the current parameter object from the
fixed set by identity, and run `optimize_one`, overwriting `best`. -/
def sweepStep (f : Objective) (solver : Solver) (i : ℕ) (st : LoopState) :
    LoopState × Option Err :=
  if h : i < st.best.settings.length then
    match optimize_one f (solver st.callIdx) (st.best.settings[i]).par i
      (fixedParamsOf st.best.settings (st.best.settings[i])) st.ctr with
    | (Except.ok r, c2, recs) =>
      (⟨r, st.sweepRes, c2, st.callIdx + 1, st.trace ++ recs⟩, none)
    | (Except.error e, c2, recs) =>
      (⟨st.best, st.sweepRes, c2, st.callIdx + 1, st.trace ++ recs⟩, some e)
  else (st, some Err.indexError)

/-- The `for` loop over a list of dimension indices, stopping at the
first error. -/
def sweepFrom (f : Objective) (solver : Solver) :
    List ℕ → LoopState → LoopState × Option Err
  | [], st => (st, none)
  | i :: rest, st =>
    match sweepStep f solver i st with
    | (st2, none) => sweepFrom f solver rest st2
    | (st2, some e) => (st2, some e)

/-- The `while True` loop of lines 117–152, with explicit fuel: run a
full sweep over all dimensions; if `best.value - sweepRes.value <
MIN_DIFF_BETWEEN_ITERATIONS`, return `sweepRes` (the previous sweep's
result); otherwise set `sweepRes := best` and repeat.  `none` models
running out of fuel (the loop has no iteration cap in the source). -/
def loopRun (f : Objective) (solver : Solver) (dims : ℕ) :
    ℕ → LoopState → Option (LoopState × Except Err Result)
  | 0, _ => none
  | fuel + 1, st =>
    match sweepFrom f solver (List.range dims) st with
    | (st2, some e) => some (st2, Except.error e)
    | (st2, none) =>
      if st2.best.value - st2.sweepRes.value < MIN_DIFF_BETWEEN_ITERATIONS then
        some (st2, Except.ok st2.sweepRes)
      else loopRun f solver dims fuel { st2 with sweepRes := st2.best }

/-- The initial loop state of lines 112–115: both `best_result` and
`result_of_all_params_iteration` are the sentinel
`Result(value=0, settings=params)`, the recorder is cleared, and no
evaluation has happened yet. -/
def initState (params : List PObj) : LoopState :=
  ⟨⟨0, params⟩, ⟨0, params⟩, 0, 0, []⟩

/-- The method `Optimization.optimize_all` (lines 99–152): raise
`lengthMismatch` when `len(params) != len(bounds)` (before any
evaluation), otherwise run the sweep loop.  Returns the outcome together
with the instrumentation trace of every recorded evaluation;
`none` models fuel exhaustion of the unbounded loop. -/
def optimize_all (f : Objective) (solver : Solver) (params : List PObj)
    (bounds : List (ℚ × ℚ)) (fuel : ℕ) :
    Option (Except Err Result × List Result) :=
  if params.length ≠ bounds.length then
    some (Except.error Err.lengthMismatch, [])
  else
    match loopRun f solver params.length fuel (initState params) with
    | none => none
    | some (st, res) => some (res, st.trace)

/-! ### Helper lemmas -/

theorem pyInsert_length (l : List α) (i : ℕ) (a : α) :
    (pyInsert l i a).length = l.length + 1 := by
  simp [pyInsert]
  omega

theorem pyInsert_eq_insertIdx (l : List α) (i : ℕ) (a : α) (h : i ≤ l.length) :
    pyInsert l i a = List.insertIdx i a l := by
  induction l generalizing i with
  | nil =>
    rw [Nat.le_zero.mp h]
    rfl
  | cons b t ih =>
    cases i with
    | zero => rfl
    | succ n =>
      simp only [pyInsert, List.take_succ_cons, List.drop_succ_cons,
        List.cons_append, List.insertIdx_succ_cons]
      rw [← pyInsert, ih n (Nat.le_of_succ_le_succ h)]

theorem gather_length (param : ℚ) (paramIndex : ℕ)
    (paramRatio isParamInt : Bool) (fixedParams : List Param) :
    (gather_params_to_pass param paramIndex paramRatio isParamInt
      fixedParams).length = fixedParams.length + 1 := by
  unfold gather_params_to_pass
  rw [pyInsert_length]
  simp

theorem pyInt_den_one {v : ℚ} (h : v.den = 1) : pyInt v = v.num := by
  unfold pyInt
  rw [h, Nat.div_one]
  split <;> omega

/-! ### C3: per-parameter encoding -/

/-- C3 counterexample: at the non-ratio integer-mode parameter with value
27/10 (= 2.7), `_gather_params_to_pass` emits `Int(2)` — the truncation of
the value — whereas the claim predicts `Int(round(2.7)) = Int(3)`.  The
claimed emission is therefore false at this input. -/
theorem C3_counterexample :
    gather_params_to_pass q27_10 0 false true [] = [EncodedValue.intVal 2] ∧
    round q27_10 = 3 ∧
    gather_params_to_pass q27_10 0 false true [] ≠
      [EncodedValue.intVal (round q27_10)] := by
  have h1 : gather_params_to_pass q27_10 0 false true [] =
      [EncodedValue.intVal 2] := by decide
  have h2 : round q27_10 = 3 := by
    have hq : q27_10 = 27 / 10 := by
      rw [← Rat.num_div_den q27_10, show q27_10.num = 27 from rfl,
        show q27_10.den = 10 from rfl]
      norm_num
    rw [hq]
    norm_num [round_eq]
  refine ⟨h1, h2, ?_⟩
  rw [h1, h2]
  decide

/-- C3 (amended): for every parameter, `_gather_params_to_pass` emits the
ratio wire form when `is_ratio`, else `Int(int(value))` — the truncation
toward zero of the value, not its rounding — when `is_int`, else
`Float(value)`: the gathered sequence is exactly the per-parameter
encoding `encodeParam` of each fixed parameter in their original order,
with the candidate's encoding inserted at `param_index`. -/
theorem C3_encode_elements (param : ℚ) (paramIndex : ℕ)
    (paramRatio isParamInt : Bool) (fixedParams : List Param)
    (h : paramIndex ≤ fixedParams.length) :
    gather_params_to_pass param paramIndex paramRatio isParamInt fixedParams =
      List.insertIdx paramIndex (encodeParam ⟨param, paramRatio, isParamInt⟩)
        (fixedParams.map encodeParam) := by
  unfold gather_params_to_pass
  rw [pyInsert_eq_insertIdx _ _ _ (by simpa using h)]
  rfl

/-- C3 witness: the amended theorem applied at a concrete input. -/
theorem C3_encode_elements_witness :
    (0 : ℕ) ≤ ([⟨1, true, false⟩] : List Param).length ∧
    gather_params_to_pass 5 0 false true [⟨1, true, false⟩] =
      List.insertIdx 0 (encodeParam ⟨5, false, true⟩)
        (([⟨1, true, false⟩] : List Param).map encodeParam) :=
  ⟨by decide, C3_encode_elements 5 0 false true [⟨1, true, false⟩] (by decide)⟩

/-! ### C4: codec round trip -/

/-- C4 counterexample: the round trip fails (i) for a non-ratio
integer-mode parameter with fractional value 27/10, whose value decodes to
2 (truncation loses 0.7, far beyond floating-point tolerance), and (ii)
for a parameter with both `is_ratio` and `is_int` set, whose `is_int` flag
decodes to `false`. -/
theorem C4_counterexample :
    decodeValue (encodeParam ⟨q27_10, false, true⟩) = ⟨2, false, true⟩ ∧
    decodeValue (encodeParam ⟨q27_10, false, true⟩) ≠ ⟨q27_10, false, true⟩ ∧
    decodeValue (encodeParam ⟨5, true, true⟩) = ⟨5, true, false⟩ ∧
    decodeValue (encodeParam ⟨5, true, true⟩) ≠ ⟨5, true, true⟩ := by
  refine ⟨by decide, by decide, by decide, by decide⟩

/-- C4 (amended): for every Parameter `p` such that `is_int` is not set
together with `is_ratio` and such that an integer-mode value is actually
integral, decoding the encoded form of `p` reproduces `p` exactly (in the
rational model there is no floating-point error at all). -/
theorem C4_roundtrip (p : Param) (h1 : p.isRatio = true → p.isInt = false)
    (h2 : p.isInt = true → p.value.den = 1) :
    decodeValue (encodeParam p) = p := by
  obtain ⟨v, r, b⟩ := p
  cases r with
  | true =>
    have hb : b = false := h1 rfl
    subst hb
    rfl
  | false =>
    cases b with
    | false => rfl
    | true =>
      have hd : v.den = 1 := h2 rfl
      show decodeValue (EncodedValue.intVal (pyInt v)) = ⟨v, false, true⟩
      rw [pyInt_den_one hd]
      exact congrArg (fun q => Param.mk q false true) ((Rat.den_eq_one_iff v).mp hd)

/-- C4 witness: the amended round trip at the integral integer-mode
parameter with value 3. -/
theorem C4_roundtrip_witness :
    ((⟨3, false, true⟩ : Param).isRatio = true →
      (⟨3, false, true⟩ : Param).isInt = false) ∧
    ((⟨3, false, true⟩ : Param).isInt = true →
      ((⟨3, false, true⟩ : Param).value).den = 1) ∧
    decodeValue (encodeParam ⟨3, false, true⟩) = ⟨3, false, true⟩ :=
  ⟨by decide, by decide, C4_roundtrip ⟨3, false, true⟩ (by decide) (by decide)⟩

/-! ### C5: exclusion of the current parameter from the fixed set -/

theorem fixedParamsOf_nodup_eraseIdx (settings : List PObj) (i : ℕ)
    (h : i < settings.length) (hnd : (settings.map PObj.oid).Nodup) :
    fixedParamsOf settings settings[i] = settings.eraseIdx i := by
  induction settings generalizing i with
  | nil => simp at h
  | cons a t ih =>
    rw [List.map_cons, List.nodup_cons] at hnd
    cases i with
    | zero =>
      show fixedParamsOf (a :: t) a = t
      unfold fixedParamsOf
      rw [List.filter_cons_of_neg (by simp)]
      apply List.filter_eq_self.mpr
      intro p hp
      have hmem : p.oid ∈ t.map PObj.oid := List.mem_map_of_mem _ hp
      simp only [bne_iff_ne, ne_eq]
      intro hEq
      exact hnd.1 (hEq ▸ hmem)
    | succ n =>
      have hn : n < t.length := Nat.lt_of_succ_lt_succ h
      show fixedParamsOf (a :: t) t[n] = a :: t.eraseIdx n
      unfold fixedParamsOf
      rw [List.filter_cons_of_pos ?_]
      · exact congrArg (a :: ·) (ih n hn hnd.2)
      · have hmem : t[n].oid ∈ t.map PObj.oid :=
          List.mem_map_of_mem _ (List.getElem_mem hn)
        simp only [bne_iff_ne, ne_eq]
        intro hEq
        exact hnd.1 (hEq ▸ hmem)

/-- C5 counterexample: when the settings tuple holds the very same Param
object at positions 0 and 1 (aliasing), the identity-based filter of
lines 122–128 removes both occurrences, so the fixed set is not the tuple
with the element at position 0 removed by position. -/
theorem C5_counterexample :
    fixedParamsOf [⟨7, ⟨1, false, false⟩⟩, ⟨7, ⟨1, false, false⟩⟩]
        (([⟨7, ⟨1, false, false⟩⟩, ⟨7, ⟨1, false, false⟩⟩] : List PObj)[0]) = [] ∧
    List.eraseIdx [(⟨7, ⟨1, false, false⟩⟩ : PObj), ⟨7, ⟨1, false, false⟩⟩] 0 =
      [⟨7, ⟨1, false, false⟩⟩] ∧
    fixedParamsOf [⟨7, ⟨1, false, false⟩⟩, ⟨7, ⟨1, false, false⟩⟩]
        (([⟨7, ⟨1, false, false⟩⟩, ⟨7, ⟨1, false, false⟩⟩] : List PObj)[0]) ≠
      List.eraseIdx [(⟨7, ⟨1, false, false⟩⟩ : PObj), ⟨7, ⟨1, false, false⟩⟩] 0 :=
  ⟨by decide, by decide, by decide⟩

/-- C5 (amended): whenever the settings tuple contains no aliased objects
(pairwise distinct object identities — in particular parameters holding
equal numeric values in distinct objects are fine), the identity-based
exclusion of lines 122–128 equals removal of the element at position `i`
by position, all other elements kept in their original relative order. -/
theorem C5_fixed_params_positional (settings : List PObj) (i : ℕ)
    (h : i < settings.length) (hnd : (settings.map PObj.oid).Nodup) :
    fixedParamsOf settings settings[i] = settings.eraseIdx i :=
  fixedParamsOf_nodup_eraseIdx settings i h hnd

/-- C5 witness: the amended theorem at a two-element tuple whose members
hold equal values but are distinct objects. -/
theorem C5_fixed_params_positional_witness :
    0 < ([⟨0, ⟨1, false, false⟩⟩, ⟨1, ⟨1, false, false⟩⟩] : List PObj).length ∧
    (([⟨0, ⟨1, false, false⟩⟩, ⟨1, ⟨1, false, false⟩⟩] : List PObj).map
      PObj.oid).Nodup ∧
    fixedParamsOf [⟨0, ⟨1, false, false⟩⟩, ⟨1, ⟨1, false, false⟩⟩]
        (([⟨0, ⟨1, false, false⟩⟩, ⟨1, ⟨1, false, false⟩⟩] : List PObj)[0]) =
      List.eraseIdx [(⟨0, ⟨1, false, false⟩⟩ : PObj), ⟨1, ⟨1, false, false⟩⟩] 0 :=
  ⟨by decide, by decide,
    C5_fixed_params_positional [⟨0, ⟨1, false, false⟩⟩, ⟨1, ⟨1, false, false⟩⟩] 0
      (by decide) (by decide)⟩

/-! ### Recorder and optimize_one lemmas -/

theorem decodeSettings_length (ctr : ℕ) (es : List EncodedValue) :
    (decodeSettings ctr es).length = es.length := by
  induction es generalizing ctr with
  | nil => rfl
  | cons e t ih => simp [decodeSettings, ih]

theorem decodeSettings_oid_ge (ctr : ℕ) (es : List EncodedValue) :
    ∀ p ∈ decodeSettings ctr es, ctr ≤ p.oid := by
  induction es generalizing ctr with
  | nil => simp [decodeSettings]
  | cons e t ih =>
    intro p hp
    rcases List.mem_cons.mp hp with h | h
    · subst h; exact le_refl _
    · exact le_trans (Nat.le_succ ctr) (ih (ctr + 1) p h)

theorem decodeSettings_oid_nodup (ctr : ℕ) (es : List EncodedValue) :
    ((decodeSettings ctr es).map PObj.oid).Nodup := by
  induction es generalizing ctr with
  | nil => simp [decodeSettings]
  | cons e t ih =>
    simp only [decodeSettings, List.map_cons, List.nodup_cons]
    refine ⟨?_, ih (ctr + 1)⟩
    intro hmem
    obtain ⟨p, hp, hoid⟩ := List.mem_map.mp hmem
    have := decodeSettings_oid_ge (ctr + 1) t p hp
    omega

theorem optimize_one_ok {f : Objective} {xs : List ℚ} {param : Param}
    {paramIndex : ℕ} {fixedParams : List PObj} {ctr : ℕ} {r : Result}
    {c2 : ℕ} {recs : List Result}
    (h : optimize_one f xs param paramIndex fixedParams ctr =
      (Except.ok r, c2, recs)) :
    recs = (evalRecords f fixedParams paramIndex param.isRatio param.isInt
      ctr xs).1 ∧ r ∈ recs ∧ ∀ s ∈ recs, s.value ≤ r.value := by
  unfold optimize_one at h
  split at h
  case h_2 => simp at h
  case h_1 a heq =>
    simp only [Prod.mk.injEq, Except.ok.injEq] at h
    obtain ⟨har, hc2, hrecs⟩ := h
    subst har
    subst hrecs
    set recs0 := (evalRecords f fixedParams paramIndex param.isRatio
      param.isInt ctr xs).1 with hrecs0
    have hsorted :=
      @List.sorted_mergeSort Result (fun a b => decide (b.value ≤ a.value))
        (fun a b c h1 h2 => by
          simp only [decide_eq_true_eq] at *
          exact le_trans h2 h1)
        (fun a b => by
          simp only [Bool.or_eq_true, decide_eq_true_eq]
          exact le_total b.value a.value)
        recs0
    rw [pySortDesc] at heq
    cases hL : recs0.mergeSort (fun a b => decide (b.value ≤ a.value)) with
    | nil =>
      rw [hL] at heq
      simp at heq
    | cons b t =>
      rw [hL] at heq
      simp only [List.head?_cons, Option.some.injEq] at heq
      subst heq
      rw [hL] at hsorted
      have hpair := (List.pairwise_cons.mp hsorted).1
      refine ⟨rfl, ?_, ?_⟩
      · refine List.mem_mergeSort.mp
          (show b ∈ recs0.mergeSort (fun a b => decide (b.value ≤ a.value))
            from ?_)
        rw [hL]
        exact List.mem_cons_self b t
      · intro s hs
        have hsL : s ∈ b :: t := by
          have hmem : s ∈ recs0.mergeSort
              (fun a b => decide (b.value ≤ a.value)) :=
            List.mem_mergeSort.mpr hs
          rwa [hL] at hmem
        rcases List.mem_cons.mp hsL with hsa | hst
        · subst hsa
          exact le_refl _
        · exact of_decide_eq_true (hpair s hst)

theorem optimize_one_nil (f : Objective) (param : Param) (paramIndex : ℕ)
    (fixedParams : List PObj) (ctr : ℕ) :
    optimize_one f [] param paramIndex fixedParams ctr =
      (Except.error Err.emptyHistory, ctr, []) := by
  unfold optimize_one
  simp [evalRecords, pySortDesc, List.mergeSort_nil]

theorem optimize_one_err {f : Objective} {xs : List ℚ} {param : Param}
    {paramIndex : ℕ} {fixedParams : List PObj} {ctr : ℕ} {e : Err}
    {c2 : ℕ} {recs : List Result}
    (h : optimize_one f xs param paramIndex fixedParams ctr =
      (Except.error e, c2, recs)) :
    e = Err.emptyHistory ∧ xs = [] ∧ recs = [] := by
  unfold optimize_one at h
  split at h
  case h_1 => simp at h
  case h_2 heq =>
    simp only [Prod.mk.injEq, Except.error.injEq] at h
    obtain ⟨he, hc2, hrecs⟩ := h
    have hnil : (evalRecords f fixedParams paramIndex param.isRatio
        param.isInt ctr xs).1 = [] := by
      by_contra hne
      obtain ⟨b, t, hbt⟩ := List.exists_cons_of_ne_nil hne
      have hmem : b ∈ pySortDesc (evalRecords f fixedParams paramIndex
          param.isRatio param.isInt ctr xs).1 := by
        rw [pySortDesc]
        refine List.mem_mergeSort.mpr ?_
        rw [hbt]
        exact List.mem_cons_self b t
      rw [List.head?_eq_none_iff] at heq
      rw [heq] at hmem
      simp at hmem
    refine ⟨he.symm, ?_, hrecs.symm.trans hnil⟩
    cases xs with
    | nil => rfl
    | cons x xt => rw [evalRecords] at hnil; simp at hnil

/-! ### C2: optimize_one returns the best recorded result -/

/-- C2: whenever `optimize_one` returns a result normally (at least one
evaluation was recorded since the recorder was cleared), the returned
Result is one of the recorded Results, of maximal value among all of
them — for every solver behaviour `xs`, i.e. regardless of recording
order; the solver's own reported optimum plays no role (the source drops
the return value of `minimize`, line 179). -/
theorem C2_recorder_best (f : Objective) (xs : List ℚ) (param : Param)
    (paramIndex : ℕ) (fixedParams : List PObj) (ctr : ℕ) (r : Result)
    (c2 : ℕ) (recs : List Result)
    (h : optimize_one f xs param paramIndex fixedParams ctr =
      (Except.ok r, c2, recs)) :
    recs = (evalRecords f fixedParams paramIndex param.isRatio param.isInt
      ctr xs).1 ∧ r ∈ recs ∧ ∀ s ∈ recs, s.value ≤ r.value :=
  optimize_one_ok h

/-- C2 witness: a concrete one-evaluation run. -/
theorem C2_recorder_best_witness :
    optimize_one (fun es => ((7 : ℚ), es)) [1] ⟨1, false, false⟩ 0 [] 0 =
      (Except.ok ⟨7, [⟨0, ⟨1, false, false⟩⟩]⟩, 1,
        [⟨7, [⟨0, ⟨1, false, false⟩⟩]⟩]) ∧
    ([⟨7, [⟨0, ⟨1, false, false⟩⟩]⟩] : List Result) =
      (evalRecords (fun es => ((7 : ℚ), es)) [] 0 false false 0 [1]).1 ∧
    (⟨7, [⟨0, ⟨1, false, false⟩⟩]⟩ : Result) ∈
      ([⟨7, [⟨0, ⟨1, false, false⟩⟩]⟩] : List Result) ∧
    ∀ s ∈ ([⟨7, [⟨0, ⟨1, false, false⟩⟩]⟩] : List Result),
      s.value ≤ (⟨7, [⟨0, ⟨1, false, false⟩⟩]⟩ : Result).value := by
  have h : optimize_one (fun es => ((7 : ℚ), es)) [1] ⟨1, false, false⟩ 0 [] 0 =
      (Except.ok ⟨7, [⟨0, ⟨1, false, false⟩⟩]⟩, 1,
        [⟨7, [⟨0, ⟨1, false, false⟩⟩]⟩]) := by
    simp [optimize_one, evalRecords, evalOnce, pySortDesc,
      gather_params_to_pass, pyInsert, decodeSettings, decodeValue,
      List.mergeSort_singleton]
  exact ⟨h, C2_recorder_best _ _ _ _ _ _ _ _ _ h⟩

/-! ### C7: no dimension check exists -/

/-- C7 counterexample: an objective that echoes three settings for a
one-element encoded tuple (so `echoed_settings.length = 3 ≠
fixed_params.length + 1 = 1`) does not make `optimize_one` fail with any
dimension-mismatch error: the evaluation is recorded with the echoed
length and returned as a normal result. -/
theorem C7_counterexample :
    optimize_one (fun _ => ((5 : ℚ),
        [EncodedValue.floatVal 1, EncodedValue.floatVal 2,
          EncodedValue.floatVal 3])) [0] ⟨1, false, false⟩ 0 [] 0 =
      (Except.ok ⟨5, [⟨0, ⟨1, false, false⟩⟩, ⟨1, ⟨2, false, false⟩⟩,
        ⟨2, ⟨3, false, false⟩⟩]⟩, 3,
        [⟨5, [⟨0, ⟨1, false, false⟩⟩, ⟨1, ⟨2, false, false⟩⟩,
          ⟨2, ⟨3, false, false⟩⟩]⟩]) ∧
    (⟨5, [⟨0, ⟨1, false, false⟩⟩, ⟨1, ⟨2, false, false⟩⟩,
      ⟨2, ⟨3, false, false⟩⟩]⟩ : Result).settings.length ≠
      ([] : List PObj).length + 1 := by
  refine ⟨?_, by decide⟩
  simp [optimize_one, evalRecords, evalOnce, pySortDesc,
    gather_params_to_pass, pyInsert, decodeSettings, decodeValue,
    List.mergeSort_singleton]

/-- C7 (amended): the scalar wrapper performs no dimension check at all:
every evaluation is recorded with exactly the settings length the
objective echoed — whatever it is — and `optimize_one` fails only when
the solver made zero evaluations, never with a dimension mismatch. -/
theorem C7_no_dimension_check (f : Objective) (fixedParams : List PObj)
    (paramIndex : ℕ) (paramRatio isParamInt : Bool) (ctr : ℕ) (x : ℚ)
    (xs : List ℚ) (param : Param) (e : Err) (c2 : ℕ) (recs : List Result) :
    ((evalOnce f fixedParams paramIndex paramRatio isParamInt ctr
        x).1).settings.length =
      ((f (gather_params_to_pass x paramIndex paramRatio isParamInt
        (fixedParams.map PObj.par))).2).length ∧
    (optimize_one f xs param paramIndex fixedParams ctr =
        (Except.error e, c2, recs) → xs = []) := by
  constructor
  · simp [evalOnce, decodeSettings_length]
  · intro h
    exact (optimize_one_err h).2.1

/-- C7 witness: the amended theorem at a concrete input, its hypothesis
discharged by the zero-evaluation run. -/
theorem C7_no_dimension_check_witness :
    ((evalOnce (fun es => ((0 : ℚ), es)) [] 0 false false 0
        0).1).settings.length =
      (((fun es => ((0 : ℚ), es)) (gather_params_to_pass 0 0 false false
        (([] : List PObj).map PObj.par))).2).length ∧
    ([] : List ℚ) = [] := by
  have hop : optimize_one (fun es => ((0 : ℚ), es)) [] ⟨0, false, false⟩
      0 [] 0 = (Except.error Err.emptyHistory, 0, []) :=
    optimize_one_nil _ _ _ _ _
  exact ⟨(C7_no_dimension_check (fun es => ((0 : ℚ), es)) [] 0 false false
      0 0 [] ⟨0, false, false⟩ Err.emptyHistory 0 []).1,
    (C7_no_dimension_check (fun es => ((0 : ℚ), es)) [] 0 false false
      0 0 [] ⟨0, false, false⟩ Err.emptyHistory 0 []).2 hop⟩

/-! ### Sweep-level lemmas -/

theorem evalOnce_settings_nodup (f : Objective) (fixedParams : List PObj)
    (paramIndex : ℕ) (paramRatio isParamInt : Bool) (ctr : ℕ) (x : ℚ) :
    (((evalOnce f fixedParams paramIndex paramRatio isParamInt ctr
      x).1).settings.map PObj.oid).Nodup := by
  simp only [evalOnce]
  exact decodeSettings_oid_nodup _ _

theorem evalOnce_settings_length {f : Objective}
    (hecho : ∀ es, ((f es).2).length = es.length) (fixedParams : List PObj)
    (paramIndex : ℕ) (paramRatio isParamInt : Bool) (ctr : ℕ) (x : ℚ) :
    ((evalOnce f fixedParams paramIndex paramRatio isParamInt ctr
      x).1).settings.length = fixedParams.length + 1 := by
  simp only [evalOnce]
  rw [decodeSettings_length, hecho, gather_length, List.length_map]

theorem evalRecords_mem {f : Objective} {fixedParams : List PObj}
    {paramIndex : ℕ} {paramRatio isParamInt : Bool} :
    ∀ {ctr : ℕ} {xs : List ℚ} {r : Result},
    r ∈ (evalRecords f fixedParams paramIndex paramRatio isParamInt
      ctr xs).1 →
    ∃ c x, r = (evalOnce f fixedParams paramIndex paramRatio isParamInt
      c x).1 := by
  intro ctr xs
  induction xs generalizing ctr with
  | nil =>
    intro r hr
    simp [evalRecords] at hr
  | cons x xt ih =>
    intro r hr
    simp only [evalRecords] at hr
    rcases List.mem_cons.mp hr with h | h
    · exact ⟨ctr, x, h⟩
    · exact ih h

theorem fixedParamsOf_length_lt (settings : List PObj) (i : ℕ)
    (h : i < settings.length) :
    (fixedParamsOf settings settings[i]).length < settings.length := by
  apply List.length_filter_lt_length_iff_exists.mpr
  exact ⟨settings[i], List.getElem_mem h, by simp⟩

theorem fixedParamsOf_length_nodup (settings : List PObj) (i : ℕ)
    (h : i < settings.length) (hnd : (settings.map PObj.oid).Nodup) :
    (fixedParamsOf settings settings[i]).length + 1 = settings.length := by
  rw [fixedParamsOf_nodup_eraseIdx settings i h hnd]
  rw [List.length_eraseIdx_of_lt h]
  omega

theorem sweepStep_none_facts {f : Objective} {solver : Solver} {i : ℕ}
    {st st2 : LoopState} (h : sweepStep f solver i st = (st2, none)) :
    i < st.best.settings.length ∧ st2.sweepRes = st.sweepRes ∧
    st.trace ⊆ st2.trace ∧ st2.best ∈ st2.trace ∧
    (st2.best.settings.map PObj.oid).Nodup ∧
    ((∀ es, ((f es).2).length = es.length) →
      0 < st2.best.settings.length ∧
      st2.best.settings.length ≤ st.best.settings.length ∧
      ((st.best.settings.map PObj.oid).Nodup →
        st2.best.settings.length = st.best.settings.length)) := by
  unfold sweepStep at h
  split at h
  case isFalse => simp at h
  case isTrue hi =>
    split at h
    case h_2 => simp at h
    case h_1 r c2 recs heq =>
      simp only [Prod.mk.injEq, and_true] at h
      subst h
      dsimp only
      obtain ⟨hrecs, hmem, -⟩ := optimize_one_ok heq
      refine ⟨hi, rfl, List.subset_append_left _ _,
        List.mem_append_right _ hmem, ?_, ?_⟩
      · obtain ⟨c, x, hrx⟩ := evalRecords_mem (hrecs ▸ hmem)
        rw [hrx]
        exact evalOnce_settings_nodup _ _ _ _ _ _ _
      · intro hecho
        have hlen : r.settings.length =
            (fixedParamsOf st.best.settings st.best.settings[i]).length + 1 := by
          obtain ⟨c, x, hrx⟩ := evalRecords_mem (hrecs ▸ hmem)
          rw [hrx]
          exact evalOnce_settings_length hecho _ _ _ _ _ _
        refine ⟨by omega, ?_, ?_⟩
        · have := fixedParamsOf_length_lt st.best.settings i hi
          omega
        · intro hnd
          have := fixedParamsOf_length_nodup st.best.settings i hi hnd
          omega

theorem sweepFrom_none_basic {f : Objective} {solver : Solver} :
    ∀ {idxs : List ℕ} {st st2 : LoopState},
    sweepFrom f solver idxs st = (st2, none) →
    st2.sweepRes = st.sweepRes ∧ st.trace ⊆ st2.trace ∧
    (st2.best = st.best ∨ st2.best ∈ st2.trace) := by
  intro idxs
  induction idxs with
  | nil =>
    intro st st2 h
    simp only [sweepFrom, Prod.mk.injEq, and_true] at h
    subst h
    exact ⟨rfl, fun a ha => ha, Or.inl rfl⟩
  | cons i rest ih =>
    intro st st2 h
    rw [sweepFrom] at h
    split at h
    case h_1 st1 heq =>
      obtain ⟨hsw, hsub, hbm⟩ := ih h
      obtain ⟨-, hsw1, hsub1, hmem1, -, -⟩ := sweepStep_none_facts heq
      refine ⟨hsw.trans hsw1, fun a ha => hsub (hsub1 ha), ?_⟩
      rcases hbm with hb | hb
      · right
        rw [hb]
        exact hsub hmem1
      · right
        exact hb
    case h_2 => simp at h

theorem sweepFrom_nodup_len {f : Objective} {solver : Solver}
    (hecho : ∀ es, ((f es).2).length = es.length) :
    ∀ {idxs : List ℕ} {st st2 : LoopState},
    sweepFrom f solver idxs st = (st2, none) →
    (st.best.settings.map PObj.oid).Nodup →
    st2.best.settings.length = st.best.settings.length ∧
    (st2.best.settings.map PObj.oid).Nodup ∧
    ∀ j ∈ idxs, j < st.best.settings.length := by
  intro idxs
  induction idxs with
  | nil =>
    intro st st2 h hnd
    simp only [sweepFrom, Prod.mk.injEq, and_true] at h
    subst h
    exact ⟨rfl, hnd, by simp⟩
  | cons i rest ih =>
    intro st st2 h hnd
    rw [sweepFrom] at h
    split at h
    case h_1 st1 heq =>
      obtain ⟨hi, -, -, -, hnd1, hlenf⟩ := sweepStep_none_facts heq
      obtain ⟨hpos, hle, heqlen⟩ := hlenf hecho
      have hL1 : st1.best.settings.length = st.best.settings.length :=
        heqlen hnd
      obtain ⟨h2len, h2nd, hjs⟩ := ih h hnd1
      refine ⟨by rw [h2len, hL1], h2nd, ?_⟩
      intro j hj
      rcases List.mem_cons.mp hj with hj0 | hjr
      · subst hj0
        exact hi
      · rw [← hL1]
        exact hjs j hjr
    case h_2 => simp at h

theorem sweepFrom_range_complete {f : Objective} {solver : Solver}
    (hecho : ∀ es, ((f es).2).length = es.length)
    {n : ℕ} {st st2 : LoopState}
    (h : sweepFrom f solver (List.range n) st = (st2, none))
    (hlen : st.best.settings.length = n) :
    st2.best.settings.length = n := by
  cases n with
  | zero =>
    rw [List.range_zero] at h
    simp only [sweepFrom, Prod.mk.injEq, and_true] at h
    subst h
    exact hlen
  | succ m =>
    rw [List.range_succ_eq_map] at h
    rw [sweepFrom] at h
    split at h
    case h_1 st1 heq =>
      obtain ⟨hi, -, -, -, hnd1, hlenf⟩ := sweepStep_none_facts heq
      obtain ⟨hpos, hle, -⟩ := hlenf hecho
      obtain ⟨h2len, -, hjs⟩ := sweepFrom_nodup_len hecho h hnd1
      rcases Nat.eq_zero_or_pos m with hm | hm
      · subst hm
        omega
      · have hmem : m ∈ (List.range m).map Nat.succ :=
          List.mem_map.mpr ⟨m - 1, List.mem_range.mpr (by omega), by omega⟩
        have hmlt := hjs m hmem
        omega
    case h_2 => simp at h

theorem loopRun_ok_len {f : Objective} {solver : Solver} {n : ℕ}
    (hecho : ∀ es, ((f es).2).length = es.length) :
    ∀ {fuel : ℕ} {st st2 : LoopState} {r : Result},
    st.best.settings.length = n → st.sweepRes.settings.length = n →
    loopRun f solver n fuel st = some (st2, Except.ok r) →
    r.settings.length = n := by
  intro fuel
  induction fuel with
  | zero =>
    intro st st2 r h1 h2 h
    simp [loopRun] at h
  | succ fu ih =>
    intro st st2 r h1 h2 h
    rw [loopRun] at h
    split at h
    case h_1 => simp at h
    case h_2 stm heq =>
      have hml : stm.best.settings.length = n :=
        sweepFrom_range_complete hecho heq h1
      split at h
      · simp only [Option.some.injEq, Prod.mk.injEq, Except.ok.injEq] at h
        obtain ⟨-, hr⟩ := h
        rw [← hr, (sweepFrom_none_basic heq).1]
        exact h2
      · refine ih ?_ ?_ h
        · exact hml
        · exact hml

/-! ### C1: convergence policy of the sweep loop -/

/-- C1: after a full sweep completes from state `st`, if the new best
improves on the previous sweep's result `st.sweepRes` by strictly less
than the threshold, the loop returns `st.sweepRes` — the previous sweep's
result, not the just-computed best — and if the improvement equals the
threshold exactly, the strict `<` treats it as still improving and the
loop performs another sweep (with `sweepRes` overwritten by the new best)
instead of returning. -/
theorem C1_convergence (f : Objective) (solver : Solver) (dims fuel : ℕ)
    (st st2 : LoopState)
    (hs : sweepFrom f solver (List.range dims) st = (st2, none)) :
    (st2.best.value - st.sweepRes.value < MIN_DIFF_BETWEEN_ITERATIONS →
      loopRun f solver dims (fuel + 1) st =
        some (st2, Except.ok st.sweepRes)) ∧
    (st2.best.value - st.sweepRes.value = MIN_DIFF_BETWEEN_ITERATIONS →
      loopRun f solver dims (fuel + 1) st =
        loopRun f solver dims fuel { st2 with sweepRes := st2.best }) := by
  have hsw : st2.sweepRes = st.sweepRes := (sweepFrom_none_basic hs).1
  constructor
  · intro hlt
    rw [loopRun, hs]
    dsimp only
    rw [hsw]
    rw [if_pos hlt]
  · intro heq30
    rw [loopRun, hs]
    dsimp only
    rw [hsw]
    rw [if_neg (not_lt.mpr (le_of_eq heq30.symm))]

/-- C1 witness: a zero-dimension sweep completes trivially; the
improvement 0 − 0 is below the threshold and the loop returns the
previous sweep's result. -/
theorem C1_convergence_witness :
    (initState []).best.value - (initState []).sweepRes.value <
      MIN_DIFF_BETWEEN_ITERATIONS ∧
    loopRun (fun es => ((0 : ℚ), es)) (fun _ => []) 0 1 (initState []) =
      some (initState [], Except.ok (initState []).sweepRes) := by
  have hs : sweepFrom (fun es => ((0 : ℚ), es)) (fun _ => [])
      (List.range 0) (initState []) = (initState [], none) := rfl
  have hlt : (initState []).best.value - (initState []).sweepRes.value <
      MIN_DIFF_BETWEEN_ITERATIONS := by
    norm_num [initState, MIN_DIFF_BETWEEN_ITERATIONS]
  exact ⟨hlt, (C1_convergence _ _ 0 0 _ _ hs).1 hlt⟩

/-! ### C6: length mismatch is checked before anything runs -/

/-- C6: whenever `params` and `bounds` differ in length, `optimize_all`
fails with the length-mismatch error and the evaluation trace is empty:
no call to the objective was performed. -/
theorem C6_length_mismatch (f : Objective) (solver : Solver)
    (params : List PObj) (bounds : List (ℚ × ℚ)) (fuel : ℕ)
    (h : params.length ≠ bounds.length) :
    optimize_all f solver params bounds fuel =
      some (Except.error Err.lengthMismatch, []) := by
  unfold optimize_all
  rw [if_pos h]

/-- C6 witness: two params against one bound. -/
theorem C6_length_mismatch_witness :
    ([⟨0, ⟨1, false, false⟩⟩, ⟨1, ⟨2, false, false⟩⟩] : List PObj).length ≠
      ([((0 : ℚ), (1 : ℚ))] : List (ℚ × ℚ)).length ∧
    optimize_all (fun es => ((0 : ℚ), es)) (fun _ => [])
        [⟨0, ⟨1, false, false⟩⟩, ⟨1, ⟨2, false, false⟩⟩]
        [((0 : ℚ), (1 : ℚ))] 0 =
      some (Except.error Err.lengthMismatch, []) :=
  ⟨by decide, C6_length_mismatch _ _ _ _ 0 (by decide)⟩

/-! ### C9: returned settings are full-dimensional -/

/-- C9: for params and bounds of equal length and an objective that
echoes a settings sequence of the same length as the encoded sequence it
receives, whenever `optimize_all` returns a Result, that Result's
settings length equals the number of parameters. -/
theorem C9_result_length (f : Objective) (solver : Solver)
    (params : List PObj) (bounds : List (ℚ × ℚ)) (fuel : ℕ) (r : Result)
    (tr : List Result)
    (hlen : params.length = bounds.length)
    (hecho : ∀ es, ((f es).2).length = es.length)
    (h : optimize_all f solver params bounds fuel =
      some (Except.ok r, tr)) :
    r.settings.length = params.length := by
  unfold optimize_all at h
  rw [if_neg (by omega)] at h
  split at h
  case h_1 => simp at h
  case h_2 st res heq =>
    simp only [Option.some.injEq, Prod.mk.injEq] at h
    obtain ⟨hres, -⟩ := h
    subst hres
    exact loopRun_ok_len hecho rfl rfl heq

/-- C9 witness: a one-dimensional run that converges immediately; the
returned Result has a one-element settings tuple. -/
theorem C9_result_length_witness :
    ([⟨0, ⟨1, false, false⟩⟩] : List PObj).length =
      ([((0 : ℚ), (1 : ℚ))] : List (ℚ × ℚ)).length ∧
    (∀ es, (((fun es => ((0 : ℚ), es)) : Objective) es).2.length =
      es.length) ∧
    optimize_all (fun es => ((0 : ℚ), es)) (fun _ => [1])
        [⟨0, ⟨1, false, false⟩⟩] [((0 : ℚ), (1 : ℚ))] 1 =
      some (Except.ok ⟨0, [⟨0, ⟨1, false, false⟩⟩]⟩,
        [⟨0, [⟨0, ⟨1, false, false⟩⟩]⟩]) ∧
    (⟨0, [⟨0, ⟨1, false, false⟩⟩]⟩ : Result).settings.length =
      ([⟨0, ⟨1, false, false⟩⟩] : List PObj).length := by
  have hc : ((0 : ℚ) < 30) := by norm_num
  have hopt : optimize_all (fun es => ((0 : ℚ), es)) (fun _ => [1])
      [⟨0, ⟨1, false, false⟩⟩] [((0 : ℚ), (1 : ℚ))] 1 =
      some (Except.ok ⟨0, [⟨0, ⟨1, false, false⟩⟩]⟩,
        [⟨0, [⟨0, ⟨1, false, false⟩⟩]⟩]) := by
    simp [optimize_all, loopRun, sweepFrom, sweepStep, initState,
      fixedParamsOf, optimize_one, evalRecords, evalOnce, pySortDesc,
      gather_params_to_pass, pyInsert, decodeSettings, decodeValue,
      List.mergeSort_singleton, MIN_DIFF_BETWEEN_ITERATIONS, hc]
  exact ⟨by decide, fun es => rfl, hopt,
    C9_result_length _ _ _ _ _ _ _ (by decide) (fun es => rfl) hopt⟩

/-! ### C8: zero evaluations yield the empty-history error -/

/-- C8: when the external solver makes zero evaluations in the very first
single-parameter optimization (nothing recorded since the recorder was
cleared), recovering the best recorded result fails with the
empty-history error, which propagates unchanged out of `optimize_all`;
no evaluation appears in the trace. -/
theorem C8_empty_history (f : Objective) (solver : Solver)
    (params : List PObj) (bounds : List (ℚ × ℚ)) (fuel : ℕ)
    (hlen : params.length = bounds.length) (hpos : 0 < params.length)
    (hsolver : ∀ k, solver k = []) :
    optimize_all f solver params bounds (fuel + 1) =
      some (Except.error Err.emptyHistory, []) := by
  obtain ⟨m, hm⟩ : ∃ m, params.length = m + 1 := ⟨params.length - 1, by omega⟩
  have hstep : sweepStep f solver 0 (initState params) =
      (⟨⟨0, params⟩, ⟨0, params⟩, 0, 1, []⟩, some Err.emptyHistory) := by
    unfold sweepStep
    dsimp only [initState]
    rw [dif_pos (show 0 < params.length from hpos)]
    rw [hsolver 0, optimize_one_nil]
    simp
  have hsweep : sweepFrom f solver (List.range params.length)
      (initState params) =
      (⟨⟨0, params⟩, ⟨0, params⟩, 0, 1, []⟩, some Err.emptyHistory) := by
    rw [hm, List.range_succ_eq_map, sweepFrom, hstep]
  have hloop : loopRun f solver params.length (fuel + 1)
      (initState params) =
      some (⟨⟨0, params⟩, ⟨0, params⟩, 0, 1, []⟩,
        Except.error Err.emptyHistory) := by
    rw [loopRun, hsweep]
  unfold optimize_all
  rw [if_neg (by omega), hloop]

/-- C8 witness: a one-parameter run with a solver that never evaluates. -/
theorem C8_empty_history_witness :
    ([⟨0, ⟨1, false, false⟩⟩] : List PObj).length =
      ([((0 : ℚ), (1 : ℚ))] : List (ℚ × ℚ)).length ∧
    0 < ([⟨0, ⟨1, false, false⟩⟩] : List PObj).length ∧
    (∀ k, ((fun _ => ([] : List ℚ)) : Solver) k = []) ∧
    optimize_all (fun es => ((0 : ℚ), es)) (fun _ => [])
        [⟨0, ⟨1, false, false⟩⟩] [((0 : ℚ), (1 : ℚ))] 1 =
      some (Except.error Err.emptyHistory, []) :=
  ⟨by decide, by decide, fun k => rfl,
    C8_empty_history _ _ _ _ 0 (by decide) (by decide) (fun k => rfl)⟩

/-! ### C10: the sentinel fallback -/

/-- C10: `best_result` and the per-sweep result start as the sentinel
`Result(value=0, settings=params)`; if the first sweep completes with
every recorded score below the threshold 30 (= 0 + threshold), the
convergence test fires on the first check and `optimize_all` returns the
sentinel itself — value 0 and the caller's unmodified parameter tuple —
even though that value was never produced by the recorded evaluations. -/
theorem C10_sentinel (f : Objective) (solver : Solver) (params : List PObj)
    (bounds : List (ℚ × ℚ)) (fuel : ℕ) (st2 : LoopState)
    (hlen : params.length = bounds.length)
    (hsweep : sweepFrom f solver (List.range params.length)
      (initState params) = (st2, none))
    (hsmall : ∀ s ∈ st2.trace, s.value < MIN_DIFF_BETWEEN_ITERATIONS) :
    optimize_all f solver params bounds (fuel + 1) =
      some (Except.ok ⟨0, params⟩, st2.trace) := by
  obtain ⟨hswR, -, hbest⟩ := sweepFrom_none_basic hsweep
  have hswR2 : st2.sweepRes = (⟨0, params⟩ : Result) := hswR
  have hbv : st2.best.value < MIN_DIFF_BETWEEN_ITERATIONS := by
    rcases hbest with hb | hb
    · rw [hb]
      show (0 : ℚ) < MIN_DIFF_BETWEEN_ITERATIONS
      norm_num [MIN_DIFF_BETWEEN_ITERATIONS]
    · exact hsmall _ hb
  have hcond : st2.best.value - st2.sweepRes.value <
      MIN_DIFF_BETWEEN_ITERATIONS := by
    rw [hswR2]
    show st2.best.value - (0 : ℚ) < MIN_DIFF_BETWEEN_ITERATIONS
    rwa [sub_zero]
  have hloop : loopRun f solver params.length (fuel + 1)
      (initState params) = some (st2, Except.ok (⟨0, params⟩ : Result)) := by
    rw [loopRun, hsweep]
    dsimp only
    rw [if_pos hcond, hswR2]
  unfold optimize_all
  rw [if_neg (by omega), hloop]

/-- C10 witness: with no dimensions the first sweep is empty, nothing is
recorded, and the sentinel with the caller's (empty) params is returned. -/
theorem C10_sentinel_witness :
    ([] : List PObj).length = ([] : List (ℚ × ℚ)).length ∧
    sweepFrom (fun es => ((0 : ℚ), es)) (fun _ => [])
      (List.range ([] : List PObj).length) (initState []) =
      (initState [], none) ∧
    (∀ s ∈ (initState []).trace, s.value < MIN_DIFF_BETWEEN_ITERATIONS) ∧
    optimize_all (fun es => ((0 : ℚ), es)) (fun _ => []) [] [] 1 =
      some (Except.ok ⟨0, []⟩, (initState []).trace) := by
  refine ⟨rfl, rfl, ?_, ?_⟩
  · intro s hs
    simp [initState] at hs
  · exact C10_sentinel _ _ _ _ 0 _ rfl rfl
      (by intro s hs; simp [initState] at hs)
